import Mathlib

/-!
Verification development for the trading-portfolio repository.

The repository's persistent schema (`src/database/schema.sql`), seed data
(`src/database/seed.sql`) and frontend (`src/frontend/...`,
`src/trading-portfolio-tracker/frontend/...`) are embedded below.  The
backend business logic (Reconciler, Ledger Service, Valuation Engine) is not
present in the repository sources; following the specification those
components are modelled here directly from the spec's §4.1–§4.4 algorithm
descriptions.  Every such definition is marked `Modelled from the spec:`.

All monetary and quantity arithmetic uses exact rationals (`ℚ`), the shallow
embedding of the spec's fixed-point decimal semantics (§4.1 numeric
semantics).
-/

namespace Portfolio

/-- Transaction types, from `schema.sql` (`CREATE TYPE transaction_type AS
ENUM ('BUY', 'SELL', 'DEPOSIT', 'WITHDRAWAL')`). -/
inductive TxnType where
  | BUY
  | SELL
  | DEPOSIT
  | WITHDRAWAL
deriving DecidableEq, Repr

/-- A transaction row, from the `transactions` table of `schema.sql`:
`id`, `transaction_type`, `symbol` (NULL for DEPOSIT/WITHDRAWAL),
`quantity`, `price`, `total_amount`, `fees`, `notes`, `transaction_date`,
`created_at`.  Timestamps are modelled as naturals. -/
structure Transaction where
  id : Nat
  transaction_type : TxnType
  symbol : Option String
  quantity : Option ℚ
  price : Option ℚ
  total_amount : ℚ
  fees : ℚ
  notes : Option String
  transaction_date : Nat
  created_at : Nat
deriving DecidableEq, Repr

/-- A derived holding, from the `stock_holdings` table of `schema.sql`:
`quantity` and `average_cost` per `(user, symbol)`. -/
structure Holding where
  quantity : ℚ
  average_cost : ℚ
deriving DecidableEq, Repr

/-- Modelled from the spec: the Reconciler's derived state (§4.1): cash
balance plus a per-symbol holdings map, represented as an association
list keyed by symbol. -/
structure DerivedState where
  cash : ℚ
  holdings : List (String × Holding)
deriving DecidableEq, Repr

/-- Errors reported by the Reconciler (§7 taxonomy). -/
inductive ReplayError where
  | InsufficientFunds
  | InsufficientShares
  | Validation
deriving DecidableEq, Repr

/-- Look a symbol up in the holdings association list. -/
def lookupH : List (String × Holding) → String → Option Holding
  | [], _ => none
  | (s, h) :: rest, sym => if s = sym then some h else lookupH rest sym

/-- Replace the holding stored for `sym`, or append it if absent. -/
def setH : List (String × Holding) → String → Holding → List (String × Holding)
  | [], sym, h => [(sym, h)]
  | (s, h0) :: rest, sym, h =>
    if s = sym then (s, h) :: rest else (s, h0) :: setH rest sym h

/-- Remove the holding stored for `sym` (zero-quantity holdings are
removed, `schema.sql` comment "current positions" / spec §4.1 SELL rule). -/
def removeH (hs : List (String × Holding)) (sym : String) : List (String × Holding) :=
  hs.filter fun p => decide (p.1 ≠ sym)

/-- Quantity currently held for `sym`; a missing holding counts as zero. -/
def heldQty (s : DerivedState) (sym : String) : ℚ :=
  ((lookupH s.holdings sym).map Holding.quantity).getD 0

/-- Modelled from the spec: the holdings update of a SELL (§4.1):
`quantity -= sell_quantity` with `average_cost` unchanged, the holding
being removed when the resulting quantity is zero; a missing holding is
left missing. -/
def sellHoldings (hs : List (String × Holding)) (sym : String) (q : ℚ) :
    List (String × Holding) :=
  match lookupH hs sym with
  | some h =>
    if h.quantity - q = 0 then removeH hs sym
    else setH hs sym ⟨h.quantity - q, h.average_cost⟩
  | none => hs

/-- Modelled from the spec: the holding update of a BUY (§4.1):
`new_avg = (old_qty*old_avg + quantity*price) / (old_qty + quantity)` and
`quantity += buy_quantity`; when no prior holding exists the holding is
created with `average_cost = price`. -/
def buyHolding (prev : Option Holding) (q p : ℚ) : Holding :=
  match prev with
  | some h => ⟨h.quantity + q, (h.quantity * h.average_cost + q * p) / (h.quantity + q)⟩
  | none => ⟨q, p⟩

/-- Modelled from the spec: one step of the Reconciler's replay algorithm
(§4.1), applied to a single transaction.  DEPOSIT adds cash; WITHDRAWAL
subtracts cash and fails with `InsufficientFunds` when cash would go
negative; BUY subtracts `total_amount + fees` (same failure) and updates
the weighted-average holding; SELL fails with `InsufficientShares` when the
held quantity is below the sold quantity, otherwise adds
`total_amount - fees` to cash, decrements the quantity leaving
`average_cost` unchanged, and removes the holding when the quantity reaches
zero.  A BUY/SELL row missing its required fields is a `Validation`
error (§7). -/
def applyTxn (s : DerivedState) (t : Transaction) : Except ReplayError DerivedState :=
  match t.transaction_type with
  | .DEPOSIT => .ok { s with cash := s.cash + t.total_amount }
  | .WITHDRAWAL =>
    if s.cash - t.total_amount < 0 then .error .InsufficientFunds
    else .ok { s with cash := s.cash - t.total_amount }
  | .BUY =>
    match t.symbol, t.quantity, t.price with
    | some sym, some q, some p =>
      if s.cash - (t.total_amount + t.fees) < 0 then .error .InsufficientFunds
      else
        .ok ⟨s.cash - (t.total_amount + t.fees),
          setH s.holdings sym (buyHolding (lookupH s.holdings sym) q p)⟩
    | _, _, _ => .error .Validation
  | .SELL =>
    match t.symbol, t.quantity with
    | some sym, some q =>
      if heldQty s sym < q then .error .InsufficientShares
      else .ok ⟨s.cash + (t.total_amount - t.fees), sellHoldings s.holdings sym q⟩
    | _, _ => .error .Validation

/-- Modelled from the spec: fold of `applyTxn` over an already-ordered
transaction list, short-circuiting on the first error (§4.1 algorithm,
"applied in order for each transaction"). -/
def replayAux (s : DerivedState) : List Transaction → Except ReplayError DerivedState
  | [] => .ok s
  | t :: ts =>
    match applyTxn s t with
    | .ok s' => replayAux s' ts
    | .error e => .error e

/-- The sort key of §4.1: `(transaction_date, created_at, id)`. -/
def txnKey (t : Transaction) : Nat × Nat × Nat :=
  (t.transaction_date, t.created_at, t.id)

/-- Strict lexicographic order on sort keys. -/
def keyLt (x y : Nat × Nat × Nat) : Prop :=
  x.1 < y.1 ∨ (x.1 = y.1 ∧ (x.2.1 < y.2.1 ∨ (x.2.1 = y.2.1 ∧ x.2.2 < y.2.2)))

/-- The canonical (non-strict) replay order of §4.1: by
`(transaction_date ascending, created_at ascending, id ascending)`. -/
def txnLe (a b : Transaction) : Prop :=
  keyLt (txnKey a) (txnKey b) ∨ txnKey a = txnKey b

instance (x y : Nat × Nat × Nat) : Decidable (keyLt x y) :=
  inferInstanceAs (Decidable (_ ∨ _))

instance : DecidableRel txnLe := fun a b =>
  inferInstanceAs (Decidable (_ ∨ _))

instance : IsTotal Transaction txnLe :=
  ⟨fun a b => by simp only [txnLe, keyLt, Prod.mk.injEq, txnKey]; omega⟩

instance : IsTrans Transaction txnLe :=
  ⟨fun a b c => by simp only [txnLe, keyLt, Prod.mk.injEq, txnKey]; omega⟩

/-- Modelled from the spec: the Reconciler's `replay` contract (§4.1) —
sort the history into the canonical chronological order, then fold the
replay algorithm over it starting from the empty state. -/
def replay (ts : List Transaction) : Except ReplayError DerivedState :=
  replayAux ⟨0, []⟩ (List.insertionSort txnLe ts)

instance : DecidableEq (Except ReplayError DerivedState) := fun a b =>
  match a, b with
  | .ok x, .ok y => decidable_of_iff (x = y) (by simp)
  | .ok _, .error _ => .isFalse (by simp)
  | .error _, .ok _ => .isFalse (by simp)
  | .error x, .error y => decidable_of_iff (x = y) (by simp)

/-- The signed cash effect of a single transaction (spec invariant 1). -/
def cashDelta (t : Transaction) : ℚ :=
  match t.transaction_type with
  | .DEPOSIT => t.total_amount
  | .WITHDRAWAL => -t.total_amount
  | .BUY => -(t.total_amount + t.fees)
  | .SELL => t.total_amount - t.fees

/-- The cash-balance formula of spec invariant 1:
`Σ DEPOSIT.total_amount − Σ WITHDRAWAL.total_amount −
Σ (BUY.total_amount + BUY.fees) + Σ (SELL.total_amount − SELL.fees)`. -/
def specCash (H : List Transaction) : ℚ :=
  ((H.filter fun t => decide (t.transaction_type = .DEPOSIT)).map
      (fun t => t.total_amount)).sum
  - ((H.filter fun t => decide (t.transaction_type = .WITHDRAWAL)).map
      (fun t => t.total_amount)).sum
  - ((H.filter fun t => decide (t.transaction_type = .BUY)).map
      (fun t => t.total_amount + t.fees)).sum
  + ((H.filter fun t => decide (t.transaction_type = .SELL)).map
      (fun t => t.total_amount - t.fees)).sum

/-- The seed transaction history of `seed.sql` lines 13–19: an initial
DEPOSIT of 10000.00 followed by BUY 10 AAPL @150.00, BUY 5 GOOGL @120.00
and BUY 8 MSFT @300.00, each with fees 1.00.  Rows are inserted in that
order with serial ids 1–4. -/
def seedTransactions : List Transaction :=
  [⟨1, .DEPOSIT, none, none, none, 10000, 0, some "Initial deposit", 1, 1⟩,
   ⟨2, .BUY, some "AAPL", some 10, some 150, 1500, 1, some "Apple Inc", 2, 2⟩,
   ⟨3, .BUY, some "GOOGL", some 5, some 120, 600, 1, some "Alphabet Inc", 3, 3⟩,
   ⟨4, .BUY, some "MSFT", some 8, some 300, 2400, 1, some "Microsoft Corp", 4, 4⟩]

/-- The cash balance `seed.sql` line 34 persists:
`10000.00 - 1500.00 - 600.00 - 2400.00 - 3.00`. -/
def seedPersistedCash : ℚ := 10000 - 1500 - 600 - 2400 - 3

/-- The derived state the seed history replays to. -/
def seedFinal : DerivedState :=
  ⟨5497, [("AAPL", ⟨10, 150⟩), ("GOOGL", ⟨5, 120⟩), ("MSFT", ⟨8, 300⟩)]⟩

/-- The rounding tolerance of §4.1: one unit of the smallest currency
increment (one cent). -/
def tolerance : ℚ := 1 / 100

/-- Modelled from the spec: the Ledger Service's per-type field validation
(§4.4, §3, §4.1 numeric semantics): BUY/SELL need `symbol`, a positive
`quantity` and `price`, a positive `total_amount` within `tolerance` of
`quantity * price`, and non-negative `fees`; DEPOSIT/WITHDRAWAL carry no
symbol/quantity/price and need a positive `total_amount` and non-negative
`fees`. -/
def wellFormed (t : Transaction) : Bool :=
  match t.transaction_type with
  | .BUY | .SELL =>
    match t.symbol, t.quantity, t.price with
    | some _, some q, some p =>
      decide (0 < q) && decide (0 < p) && decide (0 < t.total_amount) &&
        decide (0 ≤ t.fees) && decide (|t.total_amount - q * p| ≤ tolerance)
    | _, _, _ => false
  | _ =>
    decide (t.symbol = none) && decide (t.quantity = none) &&
      decide (t.price = none) && decide (0 < t.total_amount) && decide (0 ≤ t.fees)

/-- Errors reported at the Ledger Service boundary (§4.4, §7). -/
inductive ServiceError where
  | funds
  | shares
  | validation
  | notFound
deriving DecidableEq, Repr

/-- Modelled from the spec: the Ledger Service's persisted state — the
transaction log plus the cached derived-state snapshot (§9 design note:
storage holds a snapshot plus the log). -/
structure LedgerState where
  ledger : List Transaction
  snapshot : DerivedState
deriving DecidableEq, Repr

/-- Modelled from the spec: `createTransaction` (§4.4) — validate the
request, append the candidate to the history, replay the full updated
history, and persist transaction plus derived state atomically on success;
on any error the candidate is discarded and the ledger left untouched. -/
def createTransaction (st : LedgerState) (t : Transaction) :
    LedgerState × Option ServiceError :=
  if wellFormed t then
    match replay (t :: st.ledger) with
    | .ok s => (⟨t :: st.ledger, s⟩, none)
    | .error .InsufficientFunds => (st, some .funds)
    | .error .InsufficientShares => (st, some .shares)
    | .error .Validation => (st, some .validation)
  else (st, some .validation)

/-- Modelled from the spec: `deleteTransaction` (§4.4) — remove the
transaction from the candidate history, replay the remainder, and persist
removal plus derived state atomically on success; fails on not-found.  When
the remainder itself fails to replay, the error is reported and the ledger
left untouched. -/
def deleteTransaction (st : LedgerState) (tid : Nat) :
    LedgerState × Option ServiceError :=
  if st.ledger.any fun u => decide (u.id = tid) then
    match replay (st.ledger.eraseP fun u => decide (u.id = tid)) with
    | .ok s => (⟨st.ledger.eraseP fun u => decide (u.id = tid), s⟩, none)
    | .error .InsufficientFunds => (st, some .funds)
    | .error .InsufficientShares => (st, some .shares)
    | .error .Validation => (st, some .validation)
  else (st, some .notFound)

/-- An external quote; only `price` is consumed by the Valuation Engine
(§4.3, `api.js` `getQuote`). -/
structure Quote where
  price : ℚ
deriving DecidableEq, Repr

/-- One valued (or unvalued) position of a portfolio valuation (§4.3):
cost-basis fields are always populated; the market-value/gain fields are
`none` (unvalued) when the symbol's quote is unavailable. -/
structure HoldingValuation where
  symbol : String
  quantity : ℚ
  average_cost : ℚ
  market_value : Option ℚ
  unrealized_gain_loss : Option ℚ
  unrealized_gain_loss_pct : Option ℚ
deriving DecidableEq, Repr

/-- Modelled from the spec: per-holding valuation (§4.3):
`market_value = quantity × quote.price`,
`unrealized_gain_loss = market_value − quantity × average_cost`,
`unrealized_gain_loss_pct = unrealized_gain_loss / (quantity × average_cost) × 100`
(omitted on a zero denominator); a holding whose quote is unavailable is
still listed with its market fields unvalued. -/
def valueHolding (lookup : String → Option Quote) (p : String × Holding) :
    HoldingValuation :=
  match lookup p.1 with
  | none => ⟨p.1, p.2.quantity, p.2.average_cost, none, none, none⟩
  | some qt =>
    ⟨p.1, p.2.quantity, p.2.average_cost,
      some (p.2.quantity * qt.price),
      some (p.2.quantity * qt.price - p.2.quantity * p.2.average_cost),
      if p.2.quantity * p.2.average_cost = 0 then none
      else some ((p.2.quantity * qt.price - p.2.quantity * p.2.average_cost) /
        (p.2.quantity * p.2.average_cost) * 100)⟩

/-- A portfolio valuation (§4.3): the aggregate sums only valued holdings,
and `hasUnvalued` flags a partial-data result so callers can distinguish a
true total from a partial one. -/
structure PortfolioValuation where
  cash_balance : ℚ
  positions : List HoldingValuation
  total_value : ℚ
  total_gain_loss : ℚ
  hasUnvalued : Bool
deriving DecidableEq, Repr

/-- Modelled from the spec: the Valuation Engine's `value` contract (§4.3):
`total_value = cash_balance + Σ market_value` over valued holdings only;
`total_gain_loss = Σ unrealized_gain_loss` over valued holdings only;
holdings with unavailable quotes stay listed and set the partial flag. -/
def value (cash : ℚ) (holdings : List (String × Holding))
    (lookup : String → Option Quote) : PortfolioValuation :=
  { cash_balance := cash
    positions := holdings.map (valueHolding lookup)
    total_value :=
      cash + ((holdings.map (valueHolding lookup)).filterMap
        HoldingValuation.market_value).sum
    total_gain_loss :=
      ((holdings.map (valueHolding lookup)).filterMap
        HoldingValuation.unrealized_gain_loss).sum
    hasUnvalued :=
      (holdings.map (valueHolding lookup)).any fun hv => hv.market_value.isNone }

/-- JavaScript's `String.prototype.toUpperCase` restricted to the embedded
strings: uppercase every character. -/
def toUpper (s : String) : String := ⟨s.data.map Char.toUpper⟩

/-- The transaction form's state in `Transactions.jsx` (`formData`): the
user's entries, already parsed to numbers as `handleSubmit` does with
`parseFloat`. -/
structure TxnForm where
  transaction_type : TxnType
  symbol : String
  quantity : ℚ
  total_amount : ℚ
  fees : ℚ
  notes : Option String
deriving DecidableEq, Repr

/-- The transaction-creation payload posted by the frontend
(`Transactions.jsx` `handleSubmit`, spec §6): optional fields are present
exactly when the type requires them. -/
structure Payload where
  transaction_type : TxnType
  symbol : Option String
  quantity : Option ℚ
  price : Option ℚ
  total_amount : ℚ
  fees : ℚ
  notes : Option String
deriving DecidableEq, Repr

/-- The payload construction of `handleSubmit` in `Transactions.jsx`
(lines 194–216): for BUY/SELL the symbol is uppercased, the quantity taken
from the form, the price fetched from the live quote, and
`total_amount = currentPrice * quantity`; for DEPOSIT/WITHDRAWAL the
user-entered `total_amount` is used verbatim and no symbol/quantity/price
is added. -/
def handleSubmit (form : TxnForm) (quote : Quote) : Payload :=
  match form.transaction_type with
  | .BUY | .SELL =>
    { transaction_type := form.transaction_type
      symbol := some (toUpper form.symbol)
      quantity := some form.quantity
      price := some quote.price
      total_amount := quote.price * form.quantity
      fees := form.fees
      notes := form.notes }
  | _ =>
    { transaction_type := form.transaction_type
      symbol := none
      quantity := none
      price := none
      total_amount := form.total_amount
      fees := form.fees
      notes := form.notes }

/-- Modelled from the spec: the backend's `total_amount` check (§4.1
numeric semantics): for BUY/SELL, `total_amount` must equal
`quantity * price` within `tolerance`, otherwise the payload is rejected
as a `ValidationError`. -/
def validateTotal (p : Payload) : Bool :=
  match p.transaction_type with
  | .BUY | .SELL =>
    match p.quantity, p.price with
    | some q, some pr => decide (|p.total_amount - q * pr| ≤ tolerance)
    | _, _ => false
  | _ => true

/-- Modelled from the spec: realized gain of a SELL (glossary and the §8
example): `(price − average_cost) × quantity − fees`. -/
def realizedGain (price avg qty fees : ℚ) : ℚ := (price - avg) * qty - fees

/-- The first BUY of the spec's §8 weighted-average example:
BUY 10 @ 150.00. -/
def exBuy1 : Transaction :=
  ⟨1, .BUY, some "AAPL", some 10, some 150, 1500, 0, none, 1, 1⟩

/-- The second BUY of the spec's §8 weighted-average example:
BUY 5 @ 180.00. -/
def exBuy2 : Transaction :=
  ⟨2, .BUY, some "AAPL", some 5, some 180, 900, 0, none, 2, 2⟩

/-- A SELL of 5 AAPL against an empty portfolio, used to exhibit the
oversell rejection. -/
def exOversell : Transaction :=
  ⟨1, .SELL, some "AAPL", some 5, some 160, 800, 0, none, 1, 1⟩

/-- The SELL of the spec's §8 example: SELL 4 AAPL @160.00 with fees
1.00. -/
def exSell : Transaction :=
  ⟨1, .SELL, some "AAPL", some 4, some 160, 640, 1, none, 1, 1⟩

/-- A WITHDRAWAL of 5.00 against an empty ledger, used to exhibit the
insufficient-funds rejection at the service boundary. -/
def exWithdraw : Transaction :=
  ⟨1, .WITHDRAWAL, none, none, none, 5, 0, none, 1, 1⟩

/-- An ill-formed BUY (its symbol is missing), used to exhibit the
ValidationError rejection at the service boundary. -/
def exBadBuy : Transaction :=
  ⟨1, .BUY, none, some 2, some 10, 20, 0, none, 1, 1⟩

/-- A DEPOSIT of 100.00 funding the BUY that follows it. -/
def exDeposit : Transaction :=
  ⟨1, .DEPOSIT, none, none, none, 100, 0, none, 1, 1⟩

/-- A BUY of 10 AAPL @10.00 consuming the whole preceding deposit. -/
def exBuySmall : Transaction :=
  ⟨2, .BUY, some "AAPL", some 10, some 10, 100, 0, none, 2, 2⟩

/-- A ledger whose only deposit funds its only BUY: a valid history in
which deleting the deposit invalidates the remainder. -/
def exLedger : LedgerState :=
  ⟨[exDeposit, exBuySmall], ⟨0, [("AAPL", ⟨10, 10⟩)]⟩⟩

lemma buyHolding_none (q p : ℚ) : buyHolding none q p = ⟨q, p⟩ := rfl

lemma buyHolding_some (h : Holding) (q p : ℚ) :
    buyHolding (some h) q p =
      ⟨h.quantity + q, (h.quantity * h.average_cost + q * p) / (h.quantity + q)⟩ := rfl

lemma lookupH_setH_self (hs : List (String × Holding)) (sym : String) (h : Holding) :
    lookupH (setH hs sym h) sym = some h := by
  induction hs with
  | nil => simp [setH, lookupH]
  | cons p rest ih =>
    by_cases hp : p.1 = sym
    · obtain ⟨s0, h0⟩ := p
      simp_all [setH, lookupH]
    · obtain ⟨s0, h0⟩ := p
      simp_all [setH, lookupH]

lemma lookupH_removeH_self (hs : List (String × Holding)) (sym : String) :
    lookupH (removeH hs sym) sym = none := by
  induction hs with
  | nil => simp [removeH, lookupH]
  | cons p rest ih =>
    by_cases hp : p.1 = sym
    · obtain ⟨s0, h0⟩ := p
      simp_all [removeH, lookupH]
    · obtain ⟨s0, h0⟩ := p
      simp_all [removeH, lookupH, List.filter_cons]

lemma applyTxn_cash {s s' : DerivedState} {t : Transaction}
    (h : applyTxn s t = .ok s') : s'.cash = s.cash + cashDelta t := by
  cases htype : t.transaction_type with
  | DEPOSIT =>
    simp only [applyTxn, htype, Except.ok.injEq] at h
    simp [← h, cashDelta, htype]
  | WITHDRAWAL =>
    simp only [applyTxn, htype] at h
    split at h
    · simp at h
    · simp only [Except.ok.injEq] at h
      simp [← h, cashDelta, htype]
      ring
  | BUY =>
    rcases hsym : t.symbol with _ | sym <;> rcases hq : t.quantity with _ | q <;>
      rcases hp : t.price with _ | p <;>
      simp only [applyTxn, htype, hsym, hq, hp] at h <;> try simp at h
    split at h
    · simp at h
    · simp only [Except.ok.injEq] at h
      simp [← h, cashDelta, htype]
      ring
  | SELL =>
    rcases hsym : t.symbol with _ | sym <;> rcases hq : t.quantity with _ | q <;>
      simp only [applyTxn, htype, hsym, hq] at h <;> try simp at h
    split at h
    · simp at h
    · simp only [Except.ok.injEq] at h
      simp [← h, cashDelta, htype]

lemma replayAux_cash : ∀ {ts : List Transaction} {s s' : DerivedState},
    replayAux s ts = .ok s' → s'.cash = s.cash + (ts.map cashDelta).sum := by
  intro ts
  induction ts with
  | nil =>
    intro s s' h
    simp only [replayAux, Except.ok.injEq] at h
    simp [← h]
  | cons t ts ih =>
    intro s s' h
    simp only [replayAux] at h
    cases happ : applyTxn s t with
    | ok s1 =>
      rw [happ] at h
      have := ih h
      rw [this, applyTxn_cash happ]
      simp
      ring
    | error e =>
      rw [happ] at h
      simp at h

lemma specCash_cons (t : Transaction) (ts : List Transaction) :
    specCash (t :: ts) = cashDelta t + specCash ts := by
  cases htype : t.transaction_type <;>
    simp [specCash, cashDelta, htype, List.filter_cons] <;> ring

lemma specCash_eq_sum (H : List Transaction) : specCash H = (H.map cashDelta).sum := by
  induction H with
  | nil => simp [specCash]
  | cons t ts ih => simp [specCash_cons, ih]

lemma replay_cash {H : List Transaction} {s' : DerivedState} (h : replay H = .ok s') :
    s'.cash = specCash H := by
  unfold replay at h
  have hc := replayAux_cash h
  have hperm : List.Perm ((List.insertionSort txnLe H).map cashDelta) (H.map cashDelta) :=
    (List.perm_insertionSort txnLe H).map cashDelta
  rw [specCash_eq_sum, ← hperm.sum_eq]
  simpa using hc

lemma replay_seed : replay seedTransactions = .ok seedFinal := by
  norm_num [replay, replayAux, applyTxn, seedTransactions, seedFinal, List.insertionSort,
    List.orderedInsert, txnLe, keyLt, txnKey, lookupH, setH, removeH, buyHolding_some,
    buyHolding_none]
  simp +decide

/-- C1: after every successful reconciliation the cash balance equals
`Σ DEPOSIT.total_amount − Σ WITHDRAWAL.total_amount −
Σ (BUY.total_amount + BUY.fees) + Σ (SELL.total_amount − SELL.fees)` over
the replayed history; replaying the seed history of `seed.sql` yields cash
5497.00, which equals the cash balance `seed.sql` line 34 persists. -/
theorem cash_invariant_and_seed :
    (∀ (H : List Transaction) (s' : DerivedState),
        replay H = .ok s' → s'.cash = specCash H) ∧
    (∃ s : DerivedState, replay seedTransactions = .ok s ∧
        s.cash = 5497 ∧ seedPersistedCash = 5497) := by
  refine ⟨fun H s' h => replay_cash h, ⟨seedFinal, replay_seed, rfl, by norm_num [seedPersistedCash]⟩⟩

/-- Witness for C1: the cash invariant instantiated on the concrete seed
history. -/
theorem cash_invariant_witness : seedFinal.cash = specCash seedTransactions :=
  cash_invariant_and_seed.1 seedTransactions seedFinal replay_seed

lemma applyTxn_buy {s s' : DerivedState} {t : Transaction} {sym : String} {q p : ℚ}
    (htype : t.transaction_type = .BUY) (hsym : t.symbol = some sym)
    (hq : t.quantity = some q) (hp : t.price = some p)
    (happ : applyTxn s t = .ok s') :
    s' = ⟨s.cash - (t.total_amount + t.fees),
      setH s.holdings sym (buyHolding (lookupH s.holdings sym) q p)⟩ := by
  simp only [applyTxn, htype, hsym, hq, hp] at happ
  split at happ
  · simp at happ
  · simp only [Except.ok.injEq] at happ
    exact happ.symm

/-- C2: a BUY applied by the replay step to a state holding `old_qty` at
`old_avg` yields a holding of quantity `old_qty + q` and average cost
`(old_qty*old_avg + q*p) / (old_qty + q)`; with no prior holding the
holding is created with `average_cost = p`; BUY 10 @ 150.00 then
BUY 5 @ 180.00 from empty holdings yields quantity 15 and
average cost 160.00. -/
theorem buy_weighted_average :
    (∀ (s s' : DerivedState) (t : Transaction) (sym : String) (q p : ℚ) (h : Holding),
        t.transaction_type = .BUY → t.symbol = some sym →
        t.quantity = some q → t.price = some p →
        lookupH s.holdings sym = some h → applyTxn s t = .ok s' →
        lookupH s'.holdings sym =
          some ⟨h.quantity + q, (h.quantity * h.average_cost + q * p) / (h.quantity + q)⟩) ∧
    (∀ (s s' : DerivedState) (t : Transaction) (sym : String) (q p : ℚ),
        t.transaction_type = .BUY → t.symbol = some sym →
        t.quantity = some q → t.price = some p →
        lookupH s.holdings sym = none → applyTxn s t = .ok s' →
        lookupH s'.holdings sym = some ⟨q, p⟩) ∧
    (∃ s' : DerivedState, replayAux ⟨2400, []⟩ [exBuy1, exBuy2] = .ok s' ∧
        lookupH s'.holdings "AAPL" = some ⟨15, 160⟩) := by
  refine ⟨?_, ?_, ?_⟩
  · intro s s' t sym q p h htype hsym hq hp hlk happ
    rw [applyTxn_buy htype hsym hq hp happ]
    simp only [hlk, buyHolding_some]
    exact lookupH_setH_self s.holdings sym _
  · intro s s' t sym q p htype hsym hq hp hlk happ
    rw [applyTxn_buy htype hsym hq hp happ]
    simp only [hlk, buyHolding_none]
    exact lookupH_setH_self s.holdings sym _
  · refine ⟨⟨0, [("AAPL", ⟨15, 160⟩)]⟩, ?_, by simp [lookupH]⟩
    norm_num [replayAux, applyTxn, exBuy1, exBuy2, lookupH, setH, buyHolding_some,
      buyHolding_none]

/-- Witness for C2: the weighted-average rule instantiated on the second
BUY of the §8 example. -/
theorem buy_weighted_average_witness :
    lookupH (DerivedState.mk 1100 [("AAPL", ⟨15, 160⟩)]).holdings "AAPL" =
      some ⟨(10 : ℚ) + 5, ((10 : ℚ) * 150 + 5 * 180) / (10 + 5)⟩ :=
  buy_weighted_average.1 ⟨2000, [("AAPL", ⟨10, 150⟩)]⟩ ⟨1100, [("AAPL", ⟨15, 160⟩)]⟩
    exBuy2 "AAPL" 5 180 ⟨10, 150⟩ rfl rfl rfl rfl (by simp [lookupH])
    (by norm_num [applyTxn, exBuy2, lookupH, setH, buyHolding_some])

lemma replayAux_append (s : DerivedState) (l1 l2 : List Transaction) :
    replayAux s (l1 ++ l2) =
      match replayAux s l1 with
      | .ok s' => replayAux s' l2
      | .error e => .error e := by
  induction l1 generalizing s with
  | nil => simp [replayAux]
  | cons t l1 ih =>
    simp only [List.cons_append, replayAux]
    cases h : applyTxn s t <;> simp [h, ih]

lemma applyTxn_sell_insufficient {s : DerivedState} {t : Transaction} {sym : String}
    {q : ℚ} (htype : t.transaction_type = .SELL) (hsym : t.symbol = some sym)
    (hq : t.quantity = some q) (hlt : heldQty s sym < q) :
    applyTxn s t = .error .InsufficientShares := by
  simp only [applyTxn, htype, hsym, hq]
  simp [hlt]

/-- C3: when the canonical chronological order puts a SELL at a position
where the held quantity of its symbol is below the sold quantity, replay
fails with `InsufficientSharesError`, whatever transactions follow. -/
theorem oversell_always_rejected :
    ∀ (H pre post : List Transaction) (t : Transaction) (s : DerivedState)
      (sym : String) (q : ℚ),
      List.insertionSort txnLe H = pre ++ t :: post →
      replayAux ⟨0, []⟩ pre = .ok s →
      t.transaction_type = .SELL → t.symbol = some sym → t.quantity = some q →
      heldQty s sym < q →
      replay H = .error .InsufficientShares := by
  intro H pre post t s sym q hsort hpre htype hsym hq hlt
  unfold replay
  rw [hsort, replayAux_append, hpre]
  simp only [replayAux, applyTxn_sell_insufficient htype hsym hq hlt]

/-- Witness for C3: selling 5 AAPL against an empty history is rejected. -/
theorem oversell_always_rejected_witness :
    replay [exOversell] = .error .InsufficientShares :=
  oversell_always_rejected [exOversell] [] [] exOversell ⟨0, []⟩ "AAPL" 5 rfl rfl rfl
    rfl rfl (by norm_num [heldQty, lookupH])

lemma applyTxn_sell {s s' : DerivedState} {t : Transaction} {sym : String} {q : ℚ}
    (htype : t.transaction_type = .SELL) (hsym : t.symbol = some sym)
    (hq : t.quantity = some q) (happ : applyTxn s t = .ok s') :
    s' = ⟨s.cash + (t.total_amount - t.fees), sellHoldings s.holdings sym q⟩ := by
  simp only [applyTxn, htype, hsym, hq] at happ
  split at happ
  · simp at happ
  · simp only [Except.ok.injEq] at happ
    exact happ.symm

lemma sellHoldings_lookup_some {hs : List (String × Holding)} {sym : String}
    {h : Holding} (hlk : lookupH hs sym = some h) (q : ℚ) :
    sellHoldings hs sym q =
      if h.quantity - q = 0 then removeH hs sym
      else setH hs sym ⟨h.quantity - q, h.average_cost⟩ := by
  unfold sellHoldings
  rw [hlk]

/-- C7: a non-rejected SELL adds `total_amount − fees` to cash, decrements
the holding's quantity by the sold quantity leaving `average_cost`
unchanged, and removes the holding when the resulting quantity is zero;
SELL 4 AAPL @160.00 fees 1.00 against average cost 150.00 leaves quantity 6
and average cost 150.00, adds 639.00 to cash, and realizes a gain of
39.00. -/
theorem sell_semantics :
    (∀ (s s' : DerivedState) (t : Transaction) (sym : String) (q : ℚ) (h : Holding),
        t.transaction_type = .SELL → t.symbol = some sym → t.quantity = some q →
        lookupH s.holdings sym = some h → applyTxn s t = .ok s' →
        s'.cash = s.cash + (t.total_amount - t.fees) ∧
        (h.quantity - q ≠ 0 →
          lookupH s'.holdings sym = some ⟨h.quantity - q, h.average_cost⟩) ∧
        (h.quantity - q = 0 → lookupH s'.holdings sym = none)) ∧
    (applyTxn ⟨0, [("AAPL", ⟨10, 150⟩)]⟩ exSell = .ok ⟨639, [("AAPL", ⟨6, 150⟩)]⟩ ∧
      realizedGain 160 150 4 1 = 39 ∧ (639 : ℚ) = 640 - 1) := by
  constructor
  · intro s s' t sym q h htype hsym hq hlk happ
    rw [applyTxn_sell htype hsym hq happ]
    refine ⟨rfl, ?_, ?_⟩
    · intro hne
      simp only [sellHoldings_lookup_some hlk, if_neg hne]
      exact lookupH_setH_self s.holdings sym _
    · intro hz
      simp only [sellHoldings_lookup_some hlk, if_pos hz]
      exact lookupH_removeH_self s.holdings sym
  · refine ⟨?_, by norm_num [realizedGain], by norm_num⟩
    norm_num [applyTxn, exSell, heldQty, lookupH, sellHoldings, setH, removeH]

/-- Witness for C7: the SELL rules instantiated on the §8 example. -/
theorem sell_semantics_witness :
    (DerivedState.mk 639 [("AAPL", ⟨6, 150⟩)]).cash =
        (DerivedState.mk 0 [("AAPL", ⟨10, 150⟩)]).cash +
          (exSell.total_amount - exSell.fees) ∧
      ((10 : ℚ) - 4 ≠ 0 →
        lookupH (DerivedState.mk 639 [("AAPL", ⟨6, 150⟩)]).holdings "AAPL" =
          some ⟨(10 : ℚ) - 4, 150⟩) ∧
      ((10 : ℚ) - 4 = 0 →
        lookupH (DerivedState.mk 639 [("AAPL", ⟨6, 150⟩)]).holdings "AAPL" = none) :=
  sell_semantics.1 ⟨0, [("AAPL", ⟨10, 150⟩)]⟩ ⟨639, [("AAPL", ⟨6, 150⟩)]⟩ exSell
    "AAPL" 4 ⟨10, 150⟩ rfl rfl rfl (by simp [lookupH]) sell_semantics.2.1

lemma replayAux_error_iff {e : ReplayError} :
    ∀ {l : List Transaction} {s : DerivedState},
      replayAux s l = .error e ↔
        ∃ pre u post s', l = pre ++ u :: post ∧ replayAux s pre = .ok s' ∧
          applyTxn s' u = .error e := by
  intro l
  induction l with
  | nil =>
    intro s
    constructor
    · intro h
      simp [replayAux] at h
    · rintro ⟨pre, u, post, s', heq, -, -⟩
      cases pre <;> simp at heq
  | cons t ts ih =>
    intro s
    cases happ : applyTxn s t with
    | ok s1 =>
      simp only [replayAux, happ]
      rw [ih]
      constructor
      · rintro ⟨pre, u, post, s', heq, hpre, happu⟩
        exact ⟨t :: pre, u, post, s', by simp [heq],
          by simp [replayAux, happ, hpre], happu⟩
      · rintro ⟨pre, u, post, s', heq, hpre, happu⟩
        cases pre with
        | nil =>
          simp only [List.nil_append, List.cons.injEq] at heq
          obtain ⟨rfl, rfl⟩ := heq
          simp only [replayAux, Except.ok.injEq] at hpre
          rw [← hpre] at happu
          rw [happ] at happu
          simp at happu
        | cons p pre' =>
          simp only [List.cons_append, List.cons.injEq] at heq
          obtain ⟨rfl, heq'⟩ := heq
          simp only [replayAux, happ] at hpre
          exact ⟨pre', u, post, s', heq', hpre, happu⟩
    | error e' =>
      simp only [replayAux, happ]
      constructor
      · intro h
        simp only [Except.error.injEq] at h
        exact ⟨[], t, ts, s, rfl, rfl, by rw [happ, h]⟩
      · rintro ⟨pre, u, post, s', heq, hpre, happu⟩
        cases pre with
        | nil =>
          simp only [List.nil_append, List.cons.injEq] at heq
          obtain ⟨rfl, rfl⟩ := heq
          simp only [replayAux, Except.ok.injEq] at hpre
          rw [← hpre] at happu
          rw [happ] at happu
          simpa using happu
        | cons p pre' =>
          simp only [List.cons_append, List.cons.injEq] at heq
          obtain ⟨rfl, -⟩ := heq
          simp [replayAux, happ] at hpre

lemma wellFormed_trade {t : Transaction} (hwf : wellFormed t = true)
    (htype : t.transaction_type = .BUY ∨ t.transaction_type = .SELL) :
    ∃ sym q p, t.symbol = some sym ∧ t.quantity = some q ∧ t.price = some p := by
  rcases hs : t.symbol with _ | sym <;> rcases hq : t.quantity with _ | q <;>
    rcases hp : t.price with _ | p <;>
    rcases htype with htype | htype <;>
    simp [wellFormed, htype, hs, hq, hp] at hwf <;>
    exact ⟨_, _, _, rfl, rfl, rfl⟩

lemma applyTxn_funds_iff {s : DerivedState} {t : Transaction}
    (hwf : wellFormed t = true) :
    applyTxn s t = .error .InsufficientFunds ↔
      (t.transaction_type = .WITHDRAWAL ∧ s.cash - t.total_amount < 0) ∨
      (t.transaction_type = .BUY ∧ s.cash - (t.total_amount + t.fees) < 0) := by
  cases htype : t.transaction_type with
  | DEPOSIT => simp [applyTxn, htype]
  | WITHDRAWAL =>
    simp only [applyTxn, htype]
    split_ifs with h <;> simp [h]
  | BUY =>
    obtain ⟨sym, q, p, hs, hq, hp⟩ := wellFormed_trade hwf (Or.inl htype)
    simp only [applyTxn, htype, hs, hq, hp]
    split_ifs with h <;> simp [h]
  | SELL =>
    obtain ⟨sym, q, p, hs, hq, hp⟩ := wellFormed_trade hwf (Or.inr htype)
    simp only [applyTxn, htype, hs, hq]
    split_ifs with h <;> simp

lemma replay_funds_iff {H : List Transaction}
    (hwf : ∀ u ∈ H, wellFormed u = true) :
    replay H = .error .InsufficientFunds ↔
      ∃ pre u post s, List.insertionSort txnLe H = pre ++ u :: post ∧
        replayAux ⟨0, []⟩ pre = .ok s ∧
        ((u.transaction_type = .WITHDRAWAL ∧ s.cash - u.total_amount < 0) ∨
         (u.transaction_type = .BUY ∧ s.cash - (u.total_amount + u.fees) < 0)) := by
  unfold replay
  rw [replayAux_error_iff]
  constructor
  · rintro ⟨pre, u, post, s', heq, hpre, happ⟩
    have hu : u ∈ H := (List.perm_insertionSort txnLe H).subset (by rw [heq]; simp)
    exact ⟨pre, u, post, s', heq, hpre, (applyTxn_funds_iff (hwf u hu)).1 happ⟩
  · rintro ⟨pre, u, post, s, heq, hpre, hcond⟩
    have hu : u ∈ H := (List.perm_insertionSort txnLe H).subset (by rw [heq]; simp)
    exact ⟨pre, u, post, s, heq, hpre, (applyTxn_funds_iff (hwf u hu)).2 hcond⟩

/-- C4: under a well-formed candidate history, `createTransaction` reports
`InsufficientFundsError` exactly when the canonical chronological order of
the candidate history contains a WITHDRAWAL or BUY whose application at its
position would drive cash negative; and — unconditionally — on any
rejection, `InsufficientFundsError`, `InsufficientSharesError` or
`ValidationError` alike, the persisted ledger state is returned
unchanged. -/
theorem create_funds_iff_and_atomic :
    ∀ (st : LedgerState) (t : Transaction),
      ((∀ u ∈ t :: st.ledger, wellFormed u = true) →
        ((createTransaction st t).2 = some .funds ↔
          ∃ pre u post s,
            List.insertionSort txnLe (t :: st.ledger) = pre ++ u :: post ∧
            replayAux ⟨0, []⟩ pre = .ok s ∧
            ((u.transaction_type = .WITHDRAWAL ∧ s.cash - u.total_amount < 0) ∨
             (u.transaction_type = .BUY ∧ s.cash - (u.total_amount + u.fees) < 0)))) ∧
      (∀ e, (createTransaction st t).2 = some e → (createTransaction st t).1 = st) := by
  intro st t
  constructor
  · intro hwf
    have hwt : wellFormed t = true := hwf t (by simp)
    have h1 : (createTransaction st t).2 = some .funds ↔
        replay (t :: st.ledger) = .error .InsufficientFunds := by
      unfold createTransaction
      rw [if_pos hwt]
      cases hrep : replay (t :: st.ledger) with
      | ok s => simp
      | error e => cases e <;> simp
    rw [h1, replay_funds_iff hwf]
  · intro e he
    unfold createTransaction at he ⊢
    by_cases hw : wellFormed t
    · rw [if_pos hw] at he ⊢
      cases hrep : replay (t :: st.ledger) with
      | ok s => rw [hrep] at he; simp at he
      | error e' => rw [hrep] at he; cases e' <;> simp
    · rw [if_neg hw]

/-- Witness for C4: a WITHDRAWAL of 5.00 against an empty ledger is
rejected with the funds error, and an ill-formed BUY is rejected with the
validation error; both leave the ledger state unchanged. -/
theorem create_funds_witness :
    ((createTransaction ⟨[], ⟨0, []⟩⟩ exWithdraw).1 = ⟨[], ⟨0, []⟩⟩) ∧
      ((createTransaction ⟨[], ⟨0, []⟩⟩ exBadBuy).1 = ⟨[], ⟨0, []⟩⟩) :=
  ⟨(create_funds_iff_and_atomic ⟨[], ⟨0, []⟩⟩ exWithdraw).2 .funds
    (by
      norm_num [createTransaction, wellFormed, exWithdraw, replay, replayAux, applyTxn,
        List.insertionSort, List.orderedInsert]),
   (create_funds_iff_and_atomic ⟨[], ⟨0, []⟩⟩ exBadBuy).2 .validation
    (by norm_num [createTransaction, wellFormed, exBadBuy])⟩

lemma keyLt_asymm {x y : Nat × Nat × Nat} (h1 : keyLt x y) (h2 : keyLt y x) : False := by
  unfold keyLt at h1 h2
  omega

lemma txnLe_antisymm_key {a b : Transaction} (hab : txnLe a b) (hba : txnLe b a) :
    txnKey a = txnKey b := by
  rcases hab with h1 | h1
  · rcases hba with h2 | h2
    · exact absurd h1 (fun h => keyLt_asymm h h2)
    · exact h2.symm
  · exact h1

lemma txnKey_eq_id {a b : Transaction} (h : txnKey a = txnKey b) : a.id = b.id := by
  simp only [txnKey, Prod.mk.injEq] at h
  exact h.2.2

/-- C5: replay is insertion-order independent — permuting a history with
distinct ids never changes the result, because replay first resorts the
history into the canonical `(transaction_date, created_at, id)` order; and
the replayed sequence is always sorted by that order, so a backdated
transaction is processed at its dated position. -/
theorem replay_order_independent :
    (∀ (H H' : List Transaction), List.Perm H' H →
        (H.map Transaction.id).Nodup → replay H' = replay H) ∧
    (∀ H : List Transaction, List.Sorted txnLe (List.insertionSort txnLe H)) := by
  constructor
  · intro H H' hperm hnodup
    unfold replay
    have hsorteq : List.insertionSort txnLe H' = List.insertionSort txnLe H := by
      refine List.Perm.eq_of_sorted ?_ (List.sorted_insertionSort txnLe H')
        (List.sorted_insertionSort txnLe H)
        (((List.perm_insertionSort txnLe H').trans hperm).trans
          (List.perm_insertionSort txnLe H).symm)
      intro a b ha hb hab hba
      have haH : a ∈ H := hperm.subset ((List.perm_insertionSort txnLe H').subset ha)
      have hbH : b ∈ H := (List.perm_insertionSort txnLe H).subset hb
      exact List.inj_on_of_nodup_map hnodup haH hbH
        (txnKey_eq_id (txnLe_antisymm_key hab hba))
    rw [hsorteq]
  · intro H
    exact List.sorted_insertionSort txnLe H

/-- Witness for C5: swapping two dated BUY entries does not change the
replayed result. -/
theorem replay_order_independent_witness :
    replay [exBuy1, exBuy2] = replay [exBuy2, exBuy1] :=
  replay_order_independent.1 [exBuy2, exBuy1] [exBuy1, exBuy2]
    (List.Perm.swap exBuy2 exBuy1 []) (by decide)

/-- Counterexample for C6: `exLedger` is a valid history (its replay
succeeds) and transaction id 1 (the deposit) is present, yet deleting it
makes the remainder unreplayable — `deleteTransaction` reports an
insufficient-funds error, not a not-found error, so delete can fail for
consistency reasons. -/
theorem delete_can_fail_consistency :
    replay exLedger.ledger = .ok ⟨0, [("AAPL", ⟨10, 10⟩)]⟩ ∧
    (∃ u ∈ exLedger.ledger, u.id = 1) ∧
    (deleteTransaction exLedger 1).2 = some ServiceError.funds ∧
    (deleteTransaction exLedger 1).2 ≠ some ServiceError.notFound := by
  refine ⟨?_, ⟨exDeposit, by simp [exLedger], rfl⟩, ?_, ?_⟩
  · norm_num [replay, replayAux, applyTxn, exLedger, exDeposit, exBuySmall,
      List.insertionSort, List.orderedInsert, txnLe, keyLt, txnKey, lookupH, setH,
      buyHolding_none]
  · norm_num [deleteTransaction, exLedger, exDeposit, exBuySmall, List.eraseP,
      replay, replayAux, applyTxn, List.insertionSort, List.orderedInsert]
  · norm_num [deleteTransaction, exLedger, exDeposit, exBuySmall, List.eraseP,
      replay, replayAux, applyTxn, List.insertionSort, List.orderedInsert]
    decide

/-- C6 (amended): deleting a transaction is a full rebuild — whenever
`deleteTransaction` succeeds, the new ledger is the old one with the row
removed and the persisted derived state is exactly `replay` of that
remainder (the state as if the transaction had never existed); delete
fails with not-found when no row carries the id; but it can also fail when
the remainder itself no longer replays. -/
theorem delete_is_full_rebuild :
    ∀ (st : LedgerState) (tid : Nat) (st' : LedgerState),
      (deleteTransaction st tid = (st', none) →
        st'.ledger = st.ledger.eraseP (fun u => decide (u.id = tid)) ∧
        replay (st.ledger.eraseP fun u => decide (u.id = tid)) = .ok st'.snapshot) ∧
      ((∀ u ∈ st.ledger, u.id ≠ tid) →
        deleteTransaction st tid = (st, some .notFound)) := by
  intro st tid st'
  constructor
  · intro h
    unfold deleteTransaction at h
    by_cases hany : (st.ledger.any fun u => decide (u.id = tid)) = true
    · rw [if_pos hany] at h
      cases hrep : replay (st.ledger.eraseP fun u => decide (u.id = tid)) with
      | ok s =>
        rw [hrep] at h
        simp only [Prod.mk.injEq] at h
        obtain ⟨h1, -⟩ := h
        rw [← h1]
        exact ⟨rfl, rfl⟩
      | error e =>
        rw [hrep] at h
        cases e <;> simp at h
    · rw [if_neg hany] at h
      simp at h
  · intro hnone
    unfold deleteTransaction
    have : ¬(st.ledger.any fun u => decide (u.id = tid)) = true := by
      simp only [List.any_eq_true, decide_eq_true_eq, not_exists]
      rintro u ⟨hu, he⟩
      exact hnone u hu he
    rw [if_neg this]

/-- Witness for C6: deleting the BUY (id 2) from `exLedger` succeeds and
rebuilds the state to the replay of the deposit alone. -/
theorem delete_is_full_rebuild_witness :
    (LedgerState.mk [exDeposit] ⟨100, []⟩).ledger =
        exLedger.ledger.eraseP (fun u => decide (u.id = 2)) ∧
      replay (exLedger.ledger.eraseP fun u => decide (u.id = 2)) =
        .ok (LedgerState.mk [exDeposit] ⟨100, []⟩).snapshot :=
  (delete_is_full_rebuild exLedger 2 ⟨[exDeposit], ⟨100, []⟩⟩).1
    (by
      norm_num [deleteTransaction, exLedger, exDeposit, exBuySmall, List.eraseP,
        replay, replayAux, applyTxn, List.insertionSort, List.orderedInsert])

lemma valueHolding_market (lookup : String → Option Quote) (p : String × Holding) :
    (valueHolding lookup p).market_value =
      (lookup p.1).map fun qt => p.2.quantity * qt.price := by
  cases hlp : lookup p.1 <;> simp [valueHolding, hlp]

/-- C8: a valuation in which some symbol's quote lookup fails still
succeeds as a partial-data result: the unvalued holding stays listed with
its cost-basis fields and `none` market fields, holdings with quotes get
`market_value = quantity × price`, the total is cash plus the market
values of valued holdings only, and the partial flag is set. -/
theorem valuation_partial :
    ∀ (cash : ℚ) (holdings : List (String × Holding))
      (lookup : String → Option Quote) (sym : String) (h : Holding),
      (sym, h) ∈ holdings → lookup sym = none →
      (HoldingValuation.mk sym h.quantity h.average_cost none none none ∈
          (value cash holdings lookup).positions) ∧
      (∀ (sym' : String) (h' : Holding) (qt : Quote), (sym', h') ∈ holdings →
          lookup sym' = some qt →
          (valueHolding lookup (sym', h')).market_value =
            some (h'.quantity * qt.price) ∧
          valueHolding lookup (sym', h') ∈ (value cash holdings lookup).positions) ∧
      (value cash holdings lookup).total_value =
        cash + (holdings.filterMap fun p =>
          (lookup p.1).map fun qt => p.2.quantity * qt.price).sum ∧
      (value cash holdings lookup).hasUnvalued = true := by
  intro cash holdings lookup sym h hmem hlk
  refine ⟨?_, ?_, ?_, ?_⟩
  · refine List.mem_map.2 ⟨(sym, h), hmem, ?_⟩
    simp [valueHolding, hlk]
  · intro sym' h' qt hmem' hlk'
    exact ⟨by simp [valueHolding, hlk'], List.mem_map.2 ⟨(sym', h'), hmem', rfl⟩⟩
  · show cash + _ = cash + _
    have hfun : (HoldingValuation.market_value ∘ valueHolding lookup) =
        fun p : String × Holding => (lookup p.1).map fun qt => p.2.quantity * qt.price :=
      funext fun p => valueHolding_market lookup p
    rw [List.filterMap_map, hfun]
  · simp only [value, List.any_eq_true]
    refine ⟨valueHolding lookup (sym, h), List.mem_map.2 ⟨(sym, h), hmem, rfl⟩, ?_⟩
    simp [valueHolding, hlk]

/-- Witness for C8: a two-holding portfolio where the second symbol's
quote lookup fails still values the first holding and flags the total as
partial. -/
theorem valuation_partial_witness :
    (HoldingValuation.mk "ZZZZ" (5 : ℚ) (100 : ℚ) none none none ∈
        (value 100 [("AAPL", ⟨10, 150⟩), ("ZZZZ", ⟨5, 100⟩)]
          (fun s => if s = "AAPL" then some ⟨160⟩ else none)).positions) ∧
      (∀ (sym' : String) (h' : Holding) (qt : Quote),
          (sym', h') ∈ [("AAPL", (⟨10, 150⟩ : Holding)), ("ZZZZ", ⟨5, 100⟩)] →
          (if sym' = "AAPL" then some (⟨160⟩ : Quote) else none) = some qt →
          (valueHolding (fun s => if s = "AAPL" then some ⟨160⟩ else none)
              (sym', h')).market_value = some (h'.quantity * qt.price) ∧
          valueHolding (fun s => if s = "AAPL" then some ⟨160⟩ else none) (sym', h') ∈
            (value 100 [("AAPL", ⟨10, 150⟩), ("ZZZZ", ⟨5, 100⟩)]
              (fun s => if s = "AAPL" then some ⟨160⟩ else none)).positions) ∧
      (value 100 [("AAPL", ⟨10, 150⟩), ("ZZZZ", ⟨5, 100⟩)]
          (fun s => if s = "AAPL" then some ⟨160⟩ else none)).total_value =
        100 + (([("AAPL", (⟨10, 150⟩ : Holding)), ("ZZZZ", ⟨5, 100⟩)].filterMap
          fun p => ((fun s => if s = "AAPL" then some (⟨160⟩ : Quote) else none) p.1).map
            fun qt => p.2.quantity * qt.price).sum) ∧
      (value 100 [("AAPL", ⟨10, 150⟩), ("ZZZZ", ⟨5, 100⟩)]
          (fun s => if s = "AAPL" then some ⟨160⟩ else none)).hasUnvalued = true :=
  valuation_partial 100 [("AAPL", ⟨10, 150⟩), ("ZZZZ", ⟨5, 100⟩)]
    (fun s => if s = "AAPL" then some ⟨160⟩ else none) "ZZZZ" ⟨5, 100⟩
    (by simp) (by simp)

/-- C9: for BUY/SELL the form submits symbol and quantity with price and
total taken from the live quote, so `total_amount` equals
`quantity × price` exactly (within the one-cent tolerance) and the §4.1
total check accepts it; any payload off by more than the tolerance is
rejected; for DEPOSIT/WITHDRAWAL the entered total is submitted verbatim
with no symbol, quantity or price. -/
theorem payload_construction :
    ∀ (form : TxnForm) (quote : Quote),
      ((form.transaction_type = .BUY ∨ form.transaction_type = .SELL) →
        (handleSubmit form quote).symbol = some (toUpper form.symbol) ∧
        (handleSubmit form quote).quantity = some form.quantity ∧
        (handleSubmit form quote).price = some quote.price ∧
        (handleSubmit form quote).total_amount = quote.price * form.quantity ∧
        |(handleSubmit form quote).total_amount - form.quantity * quote.price| ≤
          tolerance ∧
        validateTotal (handleSubmit form quote) = true) ∧
      ((form.transaction_type = .DEPOSIT ∨ form.transaction_type = .WITHDRAWAL) →
        (handleSubmit form quote).total_amount = form.total_amount ∧
        (handleSubmit form quote).symbol = none ∧
        (handleSubmit form quote).quantity = none ∧
        (handleSubmit form quote).price = none) ∧
      (∀ (p : Payload) (q pr : ℚ),
        (p.transaction_type = .BUY ∨ p.transaction_type = .SELL) →
        p.quantity = some q → p.price = some pr →
        tolerance < |p.total_amount - q * pr| →
        validateTotal p = false) := by
  intro form quote
  refine ⟨?_, ?_, ?_⟩
  · rintro (htype | htype) <;>
      refine ⟨by simp [handleSubmit, htype], by simp [handleSubmit, htype],
        by simp [handleSubmit, htype], by simp [handleSubmit, htype], ?_, ?_⟩ <;>
      simp [handleSubmit, validateTotal, htype, mul_comm, tolerance]
  · rintro (htype | htype) <;>
      exact ⟨by simp [handleSubmit, htype], by simp [handleSubmit, htype],
        by simp [handleSubmit, htype], by simp [handleSubmit, htype]⟩
  · rintro p q pr (htype | htype) hq hp hfar <;>
      simp only [validateTotal, htype, hq, hp] <;>
      exact decide_eq_false (not_le.mpr hfar)

/-- Witness for C9: a BUY of 2 shares at a live price of 10.00 submits
total 20.00 and passes the total check. -/
theorem payload_construction_witness :
    (handleSubmit ⟨.BUY, "aapl", 2, 0, 0, none⟩ ⟨10⟩).symbol =
        some (toUpper (TxnForm.mk .BUY "aapl" 2 0 0 none).symbol) ∧
      (handleSubmit ⟨.BUY, "aapl", 2, 0, 0, none⟩ ⟨10⟩).quantity = some (2 : ℚ) ∧
      (handleSubmit ⟨.BUY, "aapl", 2, 0, 0, none⟩ ⟨10⟩).price = some (10 : ℚ) ∧
      (handleSubmit ⟨.BUY, "aapl", 2, 0, 0, none⟩ ⟨10⟩).total_amount = 10 * 2 ∧
      |(handleSubmit ⟨.BUY, "aapl", 2, 0, 0, none⟩ ⟨10⟩).total_amount - 2 * 10| ≤
        tolerance ∧
      validateTotal (handleSubmit ⟨.BUY, "aapl", 2, 0, 0, none⟩ ⟨10⟩) = true :=
  (payload_construction ⟨.BUY, "aapl", 2, 0, 0, none⟩ ⟨10⟩).1 (Or.inl rfl)

/-- C10: the form uppercases the symbol before submitting, so two BUY/SELL
entries whose typed symbols differ only in letter case submit the same
symbol and can never create distinct per-symbol holdings. -/
theorem symbol_case_normalized :
    ∀ (f1 f2 : TxnForm) (q1 q2 : Quote),
      (f1.transaction_type = .BUY ∨ f1.transaction_type = .SELL) →
      (f2.transaction_type = .BUY ∨ f2.transaction_type = .SELL) →
      toUpper f1.symbol = toUpper f2.symbol →
      (handleSubmit f1 q1).symbol = some (toUpper f1.symbol) ∧
      (handleSubmit f1 q1).symbol = (handleSubmit f2 q2).symbol := by
  rintro f1 f2 q1 q2 (h1 | h1) (h2 | h2) hcase <;>
    exact ⟨by simp [handleSubmit, h1], by simp [handleSubmit, h1, h2, hcase]⟩

/-- Witness for C10: typing "aApL" and "AAPL" submits the same symbol. -/
theorem symbol_case_normalized_witness :
    (handleSubmit ⟨.BUY, "aApL", 1, 0, 0, none⟩ ⟨10⟩).symbol =
        some (toUpper (TxnForm.mk .BUY "aApL" 1 0 0 none).symbol) ∧
      (handleSubmit ⟨.BUY, "aApL", 1, 0, 0, none⟩ ⟨10⟩).symbol =
        (handleSubmit ⟨.SELL, "AAPL", 1, 0, 0, none⟩ ⟨12⟩).symbol :=
  symbol_case_normalized ⟨.BUY, "aApL", 1, 0, 0, none⟩ ⟨.SELL, "AAPL", 1, 0, 0, none⟩
    ⟨10⟩ ⟨12⟩ (Or.inl rfl) (Or.inr rfl) (by decide)

end Portfolio
